import Mathlib

/-
Verification development for the tessera data-contract registry.

Strings from the Python source are modelled either as Lean `String`
(when only compared for equality) or as `List Char` (when character-level
processing such as splitting and stripping matters).  Machine state that the
Python code mutates in place (the root logger, the engine's database rows) is
modelled as explicit state passed through pure functions.
-/

namespace Tessera

/- ### Webhook allow-list parsing (src/tessera/config.py) -/

/-- Python `str.strip` whitespace test, restricted to the whitespace
characters Lean models (space, tab, newline, carriage return). -/
def isPyWhitespace (c : Char) : Bool := c.isWhitespace

/-- Model of Python `s.split(",")` on a string as a list of characters:
splits on every comma, keeping empty segments. -/
def splitOnComma (l : List Char) : List (List Char) :=
  l.foldr
    (fun c acc =>
      if c = ',' then [] :: acc
      else
        match acc with
        | [] => [[c]]
        | a :: as => (c :: a) :: as)
    [[]]

/-- Model of Python `str.strip()`: drop leading and trailing whitespace. -/
def stripChars (l : List Char) : List Char :=
  ((l.dropWhile isPyWhitespace).reverse.dropWhile isPyWhitespace).reverse

/-- Input to the pydantic field validator: either a raw string or an
already-parsed list. -/
inductive StrOrList where
  | str (s : List Char)
  | lst (l : List (List Char))
  deriving DecidableEq, Repr

/-- Model of `Settings.parse_webhook_allowed_domains` from
src/tessera/config.py: a string input is split on commas, each entry is
stripped, and only entries whose stripped form is non-empty are kept
(Python: `[domain.strip() for domain in v.split(",") if domain.strip()]`);
a list input is returned unchanged. -/
def parse_webhook_allowed_domains : StrOrList → List (List Char)
  | .str s => ((splitOnComma s).map stripChars).filter (fun d => d ≠ [])
  | .lst l => l

/-- Modelled from the spec: the Delivery Dispatcher's domain allow-list
check is not under src/; per the spec, destination URLs are validated
against the configured domain allow-list and an empty list allows all
domains. -/
def domainAllowed (allowlist : List (List Char)) (d : List Char) : Bool :=
  allowlist.isEmpty || allowlist.contains d

/- ### Settings validation (src/tessera/config.py) -/

/-- Default session secret from src/tessera/config.py; must be overridden
outside development and test. -/
def DEFAULT_SESSION_SECRET : String := "tessera-dev-secret-key-change-in-production"

/-- The fields of Settings that validate_production_config consults. -/
structure Settings where
  environment : String
  session_secret_key : String
  auto_create_tables : Bool
  auth_disabled : Bool
  rate_limit_enabled : Bool
  deriving DecidableEq

/-- Model of `Settings.validate_production_config` from src/tessera/config.py.
Raising ValueError is modelled as `Except.error` carrying the message. -/
def validate_production_config (s : Settings) : Except String Settings :=
  if s.environment ≠ "development" ∧ s.environment ≠ "test" ∧
      s.session_secret_key = DEFAULT_SESSION_SECRET then
    Except.error ("SESSION_SECRET_KEY must be set to a unique value in " ++ s.environment)
  else if s.environment ≠ "production" then
    Except.ok s
  else
    let errors : List String :=
      (if s.auto_create_tables then
        ["AUTO_CREATE_TABLES must be False in production."] else []) ++
      (if s.auth_disabled then
        ["AUTH_DISABLED must be False in production."] else []) ++
      (if !s.rate_limit_enabled then
        ["RATE_LIMIT_ENABLED should be True in production."] else [])
    if errors.isEmpty then Except.ok s
    else Except.error ("Production configuration validation failed: " ++
      String.intercalate "; " errors)

/-- True when validation raised (model of ValueError being thrown). -/
def raisesValueError : Except String Settings → Bool
  | Except.error _ => true
  | Except.ok _ => false

/- ### Logging configuration (src/tessera/logging.py) -/

/-- A handler formatter: either the JSON formatter or the text formatter
with its format and date-format strings. -/
inductive LogFormatterKind where
  | jsonFormatter
  | textFormatter (fmt : String) (datefmt : String)
  deriving DecidableEq

structure LogHandler where
  formatter : LogFormatterKind
  deriving DecidableEq

structure RootLogger where
  handlers : List LogHandler
  level : String
  deriving DecidableEq

/-- The logging module state touched by configure_logging: the root logger
plus the levels of named third-party loggers. -/
structure LoggingState where
  root : RootLogger
  namedLevels : List (String × String)
  deriving DecidableEq

def setNamedLevel (m : List (String × String)) (k v : String) : List (String × String) :=
  m.filter (fun kv => kv.1 ≠ k) ++ [(k, v)]

/-- Model of `configure_logging` from src/tessera/logging.py: clears the
root handlers, installs a single stream handler whose formatter depends on
`fmt`, sets the root level to the upper-cased level, and quiets three
third-party loggers. -/
def configure_logging (level fmt : String) (st : LoggingState) : LoggingState :=
  let handler : LogHandler :=
    { formatter :=
        if fmt = "json" then LogFormatterKind.jsonFormatter
        else LogFormatterKind.textFormatter
          "%(asctime)s %(levelname)-8s %(name)s  %(message)s" "%Y-%m-%d %H:%M:%S" }
  { root := { handlers := [handler], level := level.toUpper },
    namedLevels :=
      setNamedLevel (setNamedLevel (setNamedLevel st.namedLevels
        "uvicorn.access" "WARNING") "httpx" "WARNING") "httpcore" "WARNING" }

/- ### JSONFormatter.format (src/tessera/logging.py) -/

/-- Python exc_info tuple as far as JSONFormatter consults it:
the exception value (index 1, possibly None) and the traceback text that
formatException would render. -/
structure ExcInfo where
  excValue : Option String
  text : String
  deriving DecidableEq

/-- A log record as far as JSONFormatter.format consults it;
`message` is the result of record.getMessage(). -/
structure LogRecord where
  name : String
  levelname : String
  message : String
  excInfo : Option ExcInfo
  deriving DecidableEq

def hexDigitChars : List Char := "0123456789abcdef".data

def hexDigit (n : Nat) : Char := hexDigitChars.getD (n % 16) '0'

def quoteChar : Char := Char.ofNat 34

def lbraceChar : Char := Char.ofNat 123

def rbraceChar : Char := Char.ofNat 125

/-- JSON string escaping as json.dumps performs it: named escapes for the
common control characters and quote/backslash, `\u00XX` for the remaining
control characters. -/
def escChar (c : Char) : List Char :=
  if c = quoteChar then ['\\', quoteChar]
  else if c = '\\' then ['\\', '\\']
  else if c = '\n' then ['\\', 'n']
  else if c = '\r' then ['\\', 'r']
  else if c = '\t' then ['\\', 't']
  else if c.toNat < 32 then ['\\', 'u', '0', '0', hexDigit (c.toNat / 16), hexDigit c.toNat]
  else [c]

def escList (l : List Char) : List Char :=
  l.foldr (fun c acc => escChar c ++ acc) []

def escString (s : String) : List Char :=
  escList s.data

def renderPair (kv : String × String) : List Char :=
  quoteChar :: (escString kv.1 ++
    (quoteChar :: ':' :: ' ' :: quoteChar :: (escString kv.2 ++ [quoteChar])))

def joinPairs : List (String × String) → List Char
  | [] => []
  | [kv] => renderPair kv
  | kv :: kv₂ :: rest => renderPair kv ++ (',' :: ' ' :: joinPairs (kv₂ :: rest))

/-- Model of `json.dumps` on a string-valued dict with default separators. -/
def jsonDumps (l : List (String × String)) : List Char :=
  lbraceChar :: (joinPairs l ++ [rbraceChar])

/-- The dict JSONFormatter.format builds before serialising: the four fixed
keys, plus exc_info exactly when record.exc_info is truthy and its
exception value (index 1) is not None. -/
def logEntry (timestamp : String) (r : LogRecord) : List (String × String) :=
  [("timestamp", timestamp), ("level", r.levelname),
   ("logger", r.name), ("message", r.message)] ++
  (match r.excInfo with
   | some e => if e.excValue.isSome then [("exc_info", e.text)] else []
   | none => [])

/-- Model of `JSONFormatter.format` from src/tessera/logging.py; the
timestamp produced by datetime.now is passed in as a parameter. -/
def JSONFormatter.format (timestamp : String) (r : LogRecord) : List Char :=
  jsonDumps (logEntry timestamp r)

/- ### Migration 015 (src/alembic/versions/015_add_proposal_published_status.py) -/

/-- Model of PostgreSQL `ALTER TYPE t ADD VALUE IF NOT EXISTS v AFTER a`
on the list of enum values of t. -/
def addEnumValueAfter (vals : List String) (v a : String) : List String :=
  if v ∈ vals then vals
  else vals.foldr (fun x acc => if x = a then x :: v :: acc else x :: acc) []

/-- Modelled from the spec: the proposalstatus enum before migration 015.
The SQLAlchemy enum declarations are not under src/; the spec gives the
proposal lifecycle statuses pending, withdrawn, expired, rejected together
with approved (section 3 lists the resolution states as approved/published,
withdrawn, expired, rejected), and migration 015 confirms that approved is
present in the persisted type: it inserts published immediately AFTER
approved. -/
def proposalStatusValuesBefore : List String :=
  ["pending", "approved", "rejected", "withdrawn", "expired"]

/-- Modelled from the spec: the webhookdeliverystatus enum before migration
015: pending, delivered, failed; migration 015 inserts dead_lettered AFTER
failed. -/
def webhookDeliveryStatusValuesBefore : List String :=
  ["pending", "delivered", "failed"]

/-- Model of `upgrade()` of migration 015 on PostgreSQL: the resulting
value lists of the proposalstatus and webhookdeliverystatus enum types. -/
def migration015Upgrade : (List String) × (List String) :=
  (addEnumValueAfter proposalStatusValuesBefore "published" "approved",
   addEnumValueAfter webhookDeliveryStatusValuesBefore "dead_lettered" "failed")

/- ### Compatibility Checker (Modelled from the spec, section 4.1) -/

structure FieldSpec where
  ftype : String
  required : Bool
  deriving DecidableEq

/-- A schema document: field name to type/required spec. -/
abbrev SchemaDoc := List (String × FieldSpec)

def lookupField (s : SchemaDoc) (n : String) : Option FieldSpec :=
  (s.find? (fun kv => kv.1 = n)).map Prod.snd

/-- A field-level breaking-change description: a kind tag and the field. -/
structure ChangeItem where
  kind : String
  field : String
  deriving DecidableEq

def fieldNames (s : SchemaDoc) : List String := s.map Prod.fst

/-- Compatibility mode of an asset. -/
inductive Mode where
  | backward
  | forward
  | full
  | none
  deriving DecidableEq

/-- Modelled from the spec: the Compatibility Checker is not under src/.
Backward-mode breaking changes per section 4.1: removing a required field
(`field_removed`), changing a field type (`type_changed`), and adding a new
required field (`required_added`). -/
def backwardChanges (old new : SchemaDoc) : List ChangeItem :=
  ((fieldNames old).foldr (fun n acc =>
      match lookupField old n, lookupField new n with
      | some f, Option.none => if f.required then ⟨"field_removed", n⟩ :: acc else acc
      | some f, some g => if f.ftype ≠ g.ftype then ⟨"type_changed", n⟩ :: acc else acc
      | Option.none, _ => acc) []) ++
  ((fieldNames new).foldr (fun n acc =>
      match lookupField old n, lookupField new n with
      | Option.none, some g => if g.required then ⟨"required_added", n⟩ :: acc else acc
      | _, _ => acc) [])

def referencedFields (regs : List SchemaDoc) : List String :=
  regs.foldr (fun s acc => fieldNames s ++ acc) []

/-- Modelled from the spec: forward mode is symmetric to backward but
breaking only for fields referenced by an active registration schema. -/
def forwardChanges (old new : SchemaDoc) (regs : List SchemaDoc) : List ChangeItem :=
  (backwardChanges new old).filter (fun c => c.field ∈ referencedFields regs)

inductive Outcome where
  | compatible
  | breaking (changes : List ChangeItem)
  deriving DecidableEq

def outcomeOf (cs : List ChangeItem) : Outcome :=
  if cs = [] then Outcome.compatible else Outcome.breaking cs

/-- Modelled from the spec: `check(old_schema, new_schema, mode,
active_registrations)`; `none` mode is always compatible, `full` requires
both directions. -/
def check (old new : SchemaDoc) (mode : Mode) (regs : List SchemaDoc) : Outcome :=
  match mode with
  | Mode.none => Outcome.compatible
  | Mode.backward => outcomeOf (backwardChanges old new)
  | Mode.forward => outcomeOf (forwardChanges old new regs)
  | Mode.full => outcomeOf (backwardChanges old new ++ forwardChanges old new regs)

/- ### Contract Evolution and Notification Engine
(Modelled from the spec, sections 3 to 6; the engine source is not under
src/, only its tests and a migration are.) -/

inductive CStatus where
  | active
  | superseded
  | draft
  deriving DecidableEq

inductive PStatus where
  | pending
  | published
  | withdrawn
  | expired
  | rejected
  deriving DecidableEq

inductive RegStatus where
  | active
  | cancelled
  deriving DecidableEq

inductive DStatus where
  | pending
  | delivered
  | failed
  | dead_lettered
  deriving DecidableEq

inductive BreakerPhase where
  | closed
  | opened
  | halfOpen
  deriving DecidableEq

structure Contract where
  asset : String
  version : String
  schemaDoc : SchemaDoc
  compatibilityMode : Mode
  status : CStatus
  publishedBy : String
  deriving DecidableEq

structure Registration where
  asset : String
  version : String
  consumerTeam : String
  status : RegStatus
  deletedAt : Option Nat
  deriving DecidableEq

structure Proposal where
  id : Nat
  asset : String
  currentVersion : String
  proposedVersion : String
  proposedSchema : SchemaDoc
  mode : Mode
  status : PStatus
  createdAt : Nat
  expiresAt : Nat
  resolvedAt : Option Nat
  resolvedBy : Option String
  changes : List ChangeItem
  affectedTeams : List String
  deriving DecidableEq

structure Objection where
  proposalId : Nat
  team : String
  reason : String
  filedAt : Nat
  deriving DecidableEq

structure DeliveryRecord where
  id : Nat
  event : String
  destination : String
  status : DStatus
  replayOf : Option Nat
  deriving DecidableEq

structure AuditEvent where
  action : String
  entityType : String
  entityId : String
  actorId : String
  payload : List (String × String)
  deriving DecidableEq

/-- The committed state the engine operates on. -/
structure EngineState where
  contracts : List Contract
  registrations : List Registration
  proposals : List Proposal
  objections : List Objection
  deliveries : List DeliveryRecord
  breakers : List (String × BreakerPhase)
  subscribers : List String
  auditLog : List AuditEvent
  nextPid : Nat
  nextDid : Nat
  now : Nat
  deriving DecidableEq

/-- Configured proposal expiration window (days). -/
def expirationWindow : Nat := 30

/-- Is this contract the asset's active contract? -/
def activeP (asset : String) (c : Contract) : Bool :=
  decide (c.asset = asset ∧ c.status = CStatus.active)

def activeContractFor (st : EngineState) (asset : String) : Option Contract :=
  st.contracts.find? (activeP asset)

def countActive (st : EngineState) (asset : String) : Nat :=
  st.contracts.countP (activeP asset)

/-- Mark every active contract of the asset superseded. -/
def supersedeActives (contracts : List Contract) (asset : String) : List Contract :=
  contracts.map (fun c =>
    if c.asset = asset ∧ c.status = CStatus.active then
      { c with status := CStatus.superseded } else c)

/-- Activate a new contract version: the previously active contract of the
asset is superseded in the same step and the new contract appended active. -/
def activateContract (st : EngineState) (c : Contract) : EngineState :=
  { st with contracts :=
      supersedeActives st.contracts c.asset ++ [{ c with status := CStatus.active }] }

def activeRegistrationsFor (st : EngineState) (asset version : String) : List Registration :=
  st.registrations.filter (fun r =>
    decide (r.asset = asset ∧ r.version = version ∧
      r.status = RegStatus.active ∧ r.deletedAt = Option.none))

/-- Distinct consumer teams actively registered against the current
contract, plus the producing team; computed once at proposal creation. -/
def affectedParties (st : EngineState) (asset version producer : String) : List String :=
  ((activeRegistrationsFor st asset version).map (fun r => r.consumerTeam)).dedup ++ [producer]

/-- The audit sink is fire-and-forget: on sink failure the event is lost
but nothing else changes. -/
def emitAudit (log : List AuditEvent) (auditOk : Bool) (ev : AuditEvent) : List AuditEvent :=
  if auditOk then log ++ [ev] else log

def emitAuditMany (log : List AuditEvent) (auditOk : Bool) (evs : List AuditEvent) : List AuditEvent :=
  if auditOk then log ++ evs else log

def breakerPhaseOf (st : EngineState) (dest : String) : BreakerPhase :=
  match st.breakers.find? (fun kv => decide (kv.1 = dest)) with
  | some kv => kv.2
  | Option.none => BreakerPhase.closed

/-- One delivery record per subscribed destination; a destination whose
circuit is open is routed straight to the dead-letter sink. -/
def mkDeliveries (st : EngineState) (event : String) : List DeliveryRecord :=
  ((List.range st.subscribers.length).zip st.subscribers).map (fun p =>
    { id := st.nextDid + p.1, event := event, destination := p.2,
      status :=
        if breakerPhaseOf st p.2 = BreakerPhase.opened then DStatus.dead_lettered
        else DStatus.pending,
      replayOf := Option.none })

def dispatchEvent (st : EngineState) (event : String) : EngineState :=
  { st with deliveries := st.deliveries ++ mkDeliveries st event,
            nextDid := st.nextDid + st.subscribers.length }

def pendingProposalFor (st : EngineState) (asset : String) : Option Proposal :=
  st.proposals.find? (fun p => decide (p.asset = asset ∧ p.status = PStatus.pending))

inductive PublishResult where
  | activated (c : Contract)
  | proposalCreated (p : Proposal)
  | conflictPending (existing : Nat)
  deriving DecidableEq

def isConflict : PublishResult → Bool
  | PublishResult.conflictPending _ => true
  | _ => false

def proposalOfResult : PublishResult → Option Proposal
  | PublishResult.proposalCreated p => some p
  | _ => Option.none

/-- Modelled from the spec: `publish(asset, new_version, schema, mode,
actor)`.  A pending proposal for the asset is a conflict; an asset with no
active contract activates directly; otherwise the Compatibility Checker
decides between direct activation and proposal creation.  Every transition
emits one audit event and notifies subscribers. -/
def publish (st : EngineState) (asset version : String) (doc : SchemaDoc)
    (mode : Mode) (actor : String) (auditOk : Bool) : PublishResult × EngineState :=
  match pendingProposalFor st asset with
  | some p => (PublishResult.conflictPending p.id, st)
  | Option.none =>
    match activeContractFor st asset with
    | Option.none =>
        let c : Contract :=
          { asset := asset, version := version, schemaDoc := doc,
            compatibilityMode := mode, status := CStatus.active, publishedBy := actor }
        let st₂ := dispatchEvent (activateContract st c) "contract.published"
        let ev : AuditEvent :=
          { action := "contract.published", entityType := "contract",
            entityId := asset ++ ":" ++ version, actorId := actor,
            payload := [("asset", asset), ("version", version)] }
        (PublishResult.activated c, { st₂ with auditLog := emitAudit st₂.auditLog auditOk ev })
    | some cur =>
        match check cur.schemaDoc doc mode
            ((activeRegistrationsFor st asset cur.version).map (fun _ => cur.schemaDoc)) with
        | Outcome.compatible =>
            let c : Contract :=
              { asset := asset, version := version, schemaDoc := doc,
                compatibilityMode := mode, status := CStatus.active, publishedBy := actor }
            let st₂ := dispatchEvent (activateContract st c) "contract.published"
            let ev : AuditEvent :=
              { action := "contract.published", entityType := "contract",
                entityId := asset ++ ":" ++ version, actorId := actor,
                payload := [("asset", asset), ("version", version)] }
            (PublishResult.activated c, { st₂ with auditLog := emitAudit st₂.auditLog auditOk ev })
        | Outcome.breaking chs =>
            let p : Proposal :=
              { id := st.nextPid, asset := asset, currentVersion := cur.version,
                proposedVersion := version, proposedSchema := doc, mode := mode,
                status := PStatus.pending, createdAt := st.now,
                expiresAt := st.now + expirationWindow,
                resolvedAt := Option.none, resolvedBy := Option.none, changes := chs,
                affectedTeams := affectedParties st asset cur.version actor }
            let st₂ := dispatchEvent
              { st with proposals := st.proposals ++ [p], nextPid := st.nextPid + 1 }
              "proposal.created"
            let ev : AuditEvent :=
              { action := "proposal.created", entityType := "proposal",
                entityId := toString p.id, actorId := actor,
                payload := [("asset", asset)] }
            (PublishResult.proposalCreated p,
             { st₂ with auditLog := emitAudit st₂.auditLog auditOk ev })

inductive ResolveAction where
  | withdraw
  | reject
  | approve
  deriving DecidableEq

inductive ResolveResult where
  | resolved (p : Proposal)
  | alreadyResolved (actual : PStatus)
  | notFound
  deriving DecidableEq

def terminalStatusOf : ResolveAction → PStatus
  | ResolveAction.withdraw => PStatus.withdrawn
  | ResolveAction.reject => PStatus.rejected
  | ResolveAction.approve => PStatus.published

def resolveEventName : ResolveAction → String
  | ResolveAction.withdraw => "proposal.withdrawn"
  | ResolveAction.reject => "proposal.rejected"
  | ResolveAction.approve => "proposal.published"

def resolveUpdate (p : Proposal) (action : ResolveAction) (actor : String) (now : Nat) : Proposal :=
  { p with status := terminalStatusOf action,
           resolvedAt := some now, resolvedBy := some actor }

/-- The atomic conditional update of the single-writer-wins rule: a row is
updated only if it still equals the pending row that was read. -/
def setResolved (proposals : List Proposal) (p : Proposal) (action : ResolveAction)
    (actor : String) (now : Nat) : List Proposal :=
  proposals.map (fun q => if q = p then resolveUpdate q action actor now else q)

def resolveAuditEvent (action : ResolveAction) (p : Proposal) (actor : String) : AuditEvent :=
  { action := resolveEventName action, entityType := "proposal",
    entityId := toString p.id, actorId := actor,
    payload := [("asset_id", p.asset)] }

/-- Modelled from the spec: `resolve_proposal(proposal_id, action, actor)`;
fails with ProposalAlreadyResolved naming the actual resolved status when
the proposal is no longer pending; approve activates the proposed contract
and supersedes the prior active contract in the same step. -/
def resolve_proposal (st : EngineState) (pid : Nat) (action : ResolveAction)
    (actor : String) (auditOk : Bool) : ResolveResult × EngineState :=
  match st.proposals.find? (fun p => decide (p.id = pid)) with
  | Option.none => (ResolveResult.notFound, st)
  | some p =>
    if p.status = PStatus.pending then
      let p₂ := resolveUpdate p action actor st.now
      let st₁ := { st with proposals := setResolved st.proposals p action actor st.now }
      let st₂ :=
        match action with
        | ResolveAction.approve =>
            activateContract st₁
              { asset := p.asset, version := p.proposedVersion,
                schemaDoc := p.proposedSchema, compatibilityMode := p.mode,
                status := CStatus.active, publishedBy := actor }
        | _ => st₁
      let st₃ := dispatchEvent st₂ (resolveEventName action)
      (ResolveResult.resolved p₂,
       { st₃ with auditLog := emitAudit st₃.auditLog auditOk (resolveAuditEvent action p actor) })
    else (ResolveResult.alreadyResolved p.status, st)

inductive ObjectionResult where
  | filed (o : Objection)
  | notFound
  | notPending (actual : PStatus)
  deriving DecidableEq

def objectionAuditEvent (pid : Nat) (team reason : String) : AuditEvent :=
  { action := "proposal.objection_filed", entityType := "proposal",
    entityId := toString pid, actorId := team,
    payload := [("reason", reason)] }

/-- Modelled from the spec: `file_objection(proposal_id, team, reason)`;
append-only, does not change the proposal status; fails with NotFound or
ProposalNotPending. -/
def file_objection (st : EngineState) (pid : Nat) (team reason : String)
    (auditOk : Bool) : ObjectionResult × EngineState :=
  match st.proposals.find? (fun p => decide (p.id = pid)) with
  | Option.none => (ObjectionResult.notFound, st)
  | some p =>
    if p.status = PStatus.pending then
      let o : Objection := { proposalId := pid, team := team, reason := reason, filedAt := st.now }
      let st₁ := dispatchEvent { st with objections := st.objections ++ [o] }
        "proposal.objection_filed"
      (ObjectionResult.filed o,
       { st₁ with auditLog := emitAudit st₁.auditLog auditOk (objectionAuditEvent pid team reason) })
    else (ObjectionResult.notPending p.status, st)

def sweepEligible (p : Proposal) (now : Nat) : Bool :=
  decide (p.status = PStatus.pending ∧ p.expiresAt ≤ now)

def sweepOne (now : Nat) (p : Proposal) : Proposal :=
  if p.status = PStatus.pending ∧ p.expiresAt ≤ now then
    { p with status := PStatus.expired, resolvedAt := some now, resolvedBy := some "system" }
  else p

def expiredAuditEvent (p : Proposal) : AuditEvent :=
  { action := "proposal.expired", entityType := "proposal",
    entityId := toString p.id, actorId := "system",
    payload := [("asset_id", p.asset)] }

/-- Modelled from the spec: `sweep_expired()`; expires every proposal that
is still pending and past its deadline (system actor), one audit event and
one notification per expired proposal, and returns the count. -/
def sweep_expired (st : EngineState) (auditOk : Bool) : Nat × EngineState :=
  let eligible := st.proposals.filter (fun p => sweepEligible p st.now)
  let st₁ := { st with proposals := st.proposals.map (sweepOne st.now) }
  let st₂ := eligible.foldl (fun s _ => dispatchEvent s "proposal.expired") st₁
  (eligible.length,
   { st₂ with auditLog := emitAuditMany st₂.auditLog auditOk (eligible.map expiredAuditEvent) })

inductive ReplayResult where
  | replayed (r : DeliveryRecord)
  | notFound
  | notDeadLettered (actual : DStatus)
  deriving DecidableEq

/-- Modelled from the spec: `replay_dead_letter(record_id)`; replay of a
dead-lettered record creates a fresh record referencing the original (which
is never mutated); while the destination circuit is still open the fresh
record is dead-lettered immediately. -/
def replay_dead_letter (st : EngineState) (rid : Nat) : ReplayResult × EngineState :=
  match st.deliveries.find? (fun r => decide (r.id = rid)) with
  | Option.none => (ReplayResult.notFound, st)
  | some r =>
    if r.status = DStatus.dead_lettered then
      let fresh : DeliveryRecord :=
        { id := st.nextDid, event := r.event, destination := r.destination,
          status :=
            if breakerPhaseOf st r.destination = BreakerPhase.opened then DStatus.dead_lettered
            else DStatus.pending,
          replayOf := some r.id }
      (ReplayResult.replayed fresh,
       { st with deliveries := st.deliveries ++ [fresh], nextDid := st.nextDid + 1 })
    else (ReplayResult.notDeadLettered r.status, st)

/-- Consumer opt-in (an excluded collaborator writes the registration). -/
def registerConsumer (st : EngineState) (asset version team : String) : EngineState :=
  { st with registrations := st.registrations ++
      [{ asset := asset, version := version, consumerTeam := team,
         status := RegStatus.active, deletedAt := Option.none }] }

/-- Stateful wrapper around the Compatibility Checker, as the engine calls
it; modelled from the spec, which states the checker is pure with no side
effects: its result only depends on its arguments and the state passes
through unchanged. -/
def checkInEngine (st : EngineState) (old new : SchemaDoc) (mode : Mode)
    (regs : List SchemaDoc) : Outcome × EngineState :=
  (check old new mode regs, st)

def initState : EngineState :=
  { contracts := [], registrations := [], proposals := [], objections := [],
    deliveries := [], breakers := [], subscribers := [], auditLog := [],
    nextPid := 0, nextDid := 0, now := 0 }

/-- One engine step: any of the outward operations, a consumer
registration, a subscriber or breaker change by the dispatcher, or the
passage of time. -/
inductive Step : EngineState → EngineState → Prop where
  | publishStep (st : EngineState) (asset version : String) (doc : SchemaDoc)
      (mode : Mode) (actor : String) (ok : Bool) :
      Step st (publish st asset version doc mode actor ok).2
  | resolveStep (st : EngineState) (pid : Nat) (action : ResolveAction)
      (actor : String) (ok : Bool) :
      Step st (resolve_proposal st pid action actor ok).2
  | objectionStep (st : EngineState) (pid : Nat) (team reason : String) (ok : Bool) :
      Step st (file_objection st pid team reason ok).2
  | sweepStep (st : EngineState) (ok : Bool) :
      Step st (sweep_expired st ok).2
  | replayStep (st : EngineState) (rid : Nat) :
      Step st (replay_dead_letter st rid).2
  | registerStep (st : EngineState) (asset version team : String) :
      Step st (registerConsumer st asset version team)
  | subscribeStep (st : EngineState) (dest : String) :
      Step st { st with subscribers := st.subscribers ++ [dest] }
  | breakerStep (st : EngineState) (dest : String) (ph : BreakerPhase) :
      Step st { st with breakers := (dest, ph) :: st.breakers }
  | tickStep (st : EngineState) (dt : Nat) :
      Step st { st with now := st.now + dt }

/-- States reachable from the empty initial state by engine steps. -/
inductive Reachable : EngineState → Prop where
  | init : Reachable initState
  | step {st st₂ : EngineState} : Reachable st → Step st st₂ → Reachable st₂

/-- The published-proposal invariant of C3: a published proposal has a
non-null resolution time and its target contract exists in the version
history. -/
def publishedInv (st : EngineState) : Prop :=
  ∀ q ∈ st.proposals, q.status = PStatus.published →
    q.resolvedAt ≠ Option.none ∧
    ∃ c ∈ st.contracts, c.asset = q.asset ∧ c.version = q.proposedVersion

/-- Forget the (external) audit log: the governance state proper. -/
def eraseAudit (st : EngineState) : EngineState :=
  { st with auditLog := [] }

/- ### Concrete scenario states (spec section 8 scenario, and witnesses) -/

def ordersV1Schema : SchemaDoc := [("id", { ftype := "int", required := true })]

def ordersContractV1 : Contract :=
  { asset := "orders", version := "1.0.0", schemaDoc := ordersV1Schema,
    compatibilityMode := Mode.backward, status := CStatus.active,
    publishedBy := "team-A" }

/-- The scenario start state: asset orders has active contract v1 whose
schema requires id, and consumer team-B is registered against it. -/
def c4Start : EngineState :=
  registerConsumer (activateContract initState ordersContractV1) "orders" "1.0.0" "team-B"

/-- Producer publishes v2 with the required field id removed, under
backward mode. -/
def c4Publish : PublishResult × EngineState :=
  publish c4Start "orders" "2.0.0" [] Mode.backward "team-A" true

/-- Producer withdraws the proposal created by the breaking publish. -/
def c4Withdraw : ResolveResult × EngineState :=
  resolve_proposal c4Publish.2 0 ResolveAction.withdraw "team-A" true

def pendingProposalW : Proposal :=
  { id := 0, asset := "orders", currentVersion := "1.0.0", proposedVersion := "2.0.0",
    proposedSchema := [], mode := Mode.backward, status := PStatus.pending,
    createdAt := 0, expiresAt := 30, resolvedAt := Option.none,
    resolvedBy := Option.none, changes := [], affectedTeams := ["team-B", "team-A"] }

def publishedProposalW : Proposal :=
  { pendingProposalW with
      status := PStatus.published,
      resolvedAt := some 1,
      resolvedBy := some "team-A" }

def wStatePending : EngineState :=
  { initState with proposals := [pendingProposalW] }

def wStatePublished : EngineState :=
  { initState with proposals := [publishedProposalW] }

lemma splitOnComma_ne_nil (l : List Char) : splitOnComma l ≠ [] := by
  induction l with
  | nil => simp [splitOnComma]
  | cons c rest ih =>
    simp only [splitOnComma, List.foldr_cons] at *
    by_cases hc : c = ','
    · simp [hc]
    · simp only [hc, if_false]
      cases h : List.foldr _ [[]] rest with
      | nil => exact absurd h ih
      | cons a as => simp

lemma splitOnComma_no_comma (l : List Char) (h : ∀ c ∈ l, c ≠ ',') :
    splitOnComma l = [l] := by
  induction l with
  | nil => rfl
  | cons c rest ih =>
    have hc : c ≠ ',' := h c (List.mem_cons_self _ _)
    have hrest : splitOnComma rest = [rest] :=
      ih (fun x hx => h x (List.mem_cons_of_mem _ hx))
    simp only [splitOnComma, List.foldr_cons] at *
    rw [hrest]
    simp [hc]

lemma dropWhile_all (p : Char → Bool) (l : List Char) (h : ∀ c ∈ l, p c) :
    l.dropWhile p = [] := by
  induction l with
  | nil => rfl
  | cons c rest ih =>
    rw [List.dropWhile_cons]
    simp only [h c (List.mem_cons_self _ _), if_true]
    exact ih (fun x hx => h x (List.mem_cons_of_mem _ hx))

lemma stripChars_all_whitespace (l : List Char) (h : ∀ c ∈ l, isPyWhitespace c) :
    stripChars l = [] := by
  unfold stripChars
  rw [dropWhile_all _ _ h]
  rfl

/-- The head of `l.dropWhile p`, if any, fails `p`. -/
lemma dropWhile_head_not (p : Char → Bool) (l : List Char) :
    ∀ c cs, l.dropWhile p = c :: cs → p c = false := by
  induction l with
  | nil => intro c cs h; simp at h
  | cons a rest ih =>
    intro c cs h
    rw [List.dropWhile_cons] at h
    by_cases ha : p a
    · simp only [ha, if_true] at h
      exact ih c cs h
    · simp only [ha, if_false] at h
      cases h
      simpa using ha

/-- Dropping while `p` from a list whose head already fails `p` is the
identity. -/
lemma dropWhile_of_head_not (p : Char → Bool) (l : List Char)
    (h : ∀ c cs, l = c :: cs → p c = false) : l.dropWhile p = l := by
  cases l with
  | nil => rfl
  | cons c cs =>
    rw [List.dropWhile_cons]
    simp [h c cs rfl]

/-- `stripChars` is idempotent. -/
lemma stripChars_idem (l : List Char) : stripChars (stripChars l) = stripChars l := by
  -- Write stripChars l = n.reverse where n drops whitespace from the
  -- reversed, already left-stripped list; so n begins (if nonempty) with a
  -- non-whitespace character, and n.reverse begins with the head of the
  -- left-stripped list, also non-whitespace.
  set p := isPyWhitespace with hp
  set l₁ := l.dropWhile p with hl₁
  set n := l₁.reverse.dropWhile p with hn
  have hstrip : stripChars l = n.reverse := rfl
  -- head of stripChars l fails p
  have hm : n.reverse.dropWhile p = n.reverse := by
    apply dropWhile_of_head_not
    intro c cs hc
    obtain ⟨t, ht⟩ : n <:+ l₁.reverse := hn ▸ List.dropWhile_suffix p
    have hl₁eq : l₁ = c :: (cs ++ t.reverse) := by
      have : (t ++ n).reverse = l₁ := by rw [ht]; simp
      rw [List.reverse_append, hc] at this
      simpa using this.symm
    exact dropWhile_head_not p l c (cs ++ t.reverse) (hl₁.symm ▸ hl₁eq)
  -- head of n fails p, so the second strip is also the identity
  have hn_id : n.dropWhile p = n :=
    dropWhile_of_head_not p n (fun c cs hc => dropWhile_head_not p _ c cs (hn ▸ hc))
  show ((n.reverse.dropWhile p).reverse.dropWhile p).reverse = n.reverse
  rw [hm]
  simp only [List.reverse_reverse]
  rw [hn_id]

/- ### Claim theorems: configuration, logging, migration -/

/-- C2 counterexample: after migration 015 the persisted proposalstatus
enum still contains the value approved (published is inserted AFTER
approved, and PostgreSQL cannot remove enum values), so the persisted
proposal vocabulary is not exactly the five claimed values. -/
theorem C2_counterexample :
    "approved" ∈ migration015Upgrade.1 ∧
    "approved" ∉ ["pending", "published", "withdrawn", "expired", "rejected"] := by
  decide

/-- C2 (amended): after migration 015 the persisted proposal status
vocabulary is pending, approved, published, rejected, withdrawn, expired —
the five spec values plus the legacy value approved — and the persisted
delivery-record vocabulary is exactly pending, delivered, failed,
dead_lettered. -/
theorem C2_amended_vocabularies :
    migration015Upgrade.1 =
      ["pending", "approved", "published", "rejected", "withdrawn", "expired"] ∧
    migration015Upgrade.2 = ["pending", "delivered", "failed", "dead_lettered"] := by
  decide

/-- C7: a list value is kept unchanged; an all-whitespace (or empty) string
parses to the empty allow-list; every parsed entry is non-empty and
whitespace-stripped; and the empty allow-list allows every domain. -/
theorem C7_webhook_allowed_domains :
    (∀ l, parse_webhook_allowed_domains (StrOrList.lst l) = l) ∧
    (∀ s, (∀ c ∈ s, isPyWhitespace c) → parse_webhook_allowed_domains (StrOrList.str s) = []) ∧
    (∀ s d, d ∈ parse_webhook_allowed_domains (StrOrList.str s) → d ≠ [] ∧ stripChars d = d) ∧
    (∀ d, domainAllowed [] d = true) := by
  refine ⟨fun l => rfl, ?_, ?_, fun d => rfl⟩
  · intro s hs
    have hnc : ∀ c ∈ s, c ≠ ',' := by
      intro c hc heq
      have hw := hs c hc
      rw [heq] at hw
      exact absurd hw (by decide)
    simp only [parse_webhook_allowed_domains, splitOnComma_no_comma s hnc,
      List.map_cons, List.map_nil, stripChars_all_whitespace s hs]
    rfl
  · intro s d hd
    simp only [parse_webhook_allowed_domains, List.mem_filter, List.mem_map] at hd
    obtain ⟨⟨x, hx, hxd⟩, hne⟩ := hd
    refine ⟨by simpa using hne, ?_⟩
    rw [← hxd]
    exact stripChars_idem x

/-- C7 witness: a whitespace-only string yields the empty allow-list, and
the empty allow-list allows a concrete domain. -/
theorem C7_witness :
    parse_webhook_allowed_domains (StrOrList.str [' ', '\t', ' ']) = [] ∧
    domainAllowed [] ['e', 'x', 'a', 'm', 'p', 'l', 'e'] = true :=
  ⟨C7_webhook_allowed_domains.2.1 [' ', '\t', ' '] (by decide),
   C7_webhook_allowed_domains.2.2.2 ['e', 'x', 'a', 'm', 'p', 'l', 'e']⟩

/-- C8: with environment production, validation fails whenever
auto_create_tables or auth_disabled is true or rate_limit_enabled is
false; outside development and test it fails whenever the session secret
is still the built-in default; in all other cases it returns the settings
unchanged. -/
theorem C8_validate_production_config :
    (∀ s : Settings, s.environment = "production" →
        (s.auto_create_tables = true ∨ s.auth_disabled = true ∨ s.rate_limit_enabled = false) →
        raisesValueError (validate_production_config s) = true) ∧
    (∀ s : Settings, s.environment ≠ "development" → s.environment ≠ "test" →
        s.session_secret_key = DEFAULT_SESSION_SECRET →
        raisesValueError (validate_production_config s) = true) ∧
    (∀ s : Settings,
        (s.environment = "development" ∨ s.environment = "test" ∨
          s.session_secret_key ≠ DEFAULT_SESSION_SECRET) →
        (s.environment ≠ "production" ∨
          (s.auto_create_tables = false ∧ s.auth_disabled = false ∧
            s.rate_limit_enabled = true)) →
        validate_production_config s = Except.ok s) := by
  refine ⟨?_, ?_, ?_⟩
  · intro s henv hbad
    by_cases hsec : s.session_secret_key = DEFAULT_SESSION_SECRET
    · simp [validate_production_config, henv, hsec, raisesValueError]
    · simp only [validate_production_config, henv, hsec]
      rcases hbad with h | h | h <;> simp [h, raisesValueError]
  · intro s h1 h2 hsec
    simp [validate_production_config, h1, h2, hsec, raisesValueError]
  · intro s hsec hprod
    rcases hprod with hne | ⟨hact, had, hrl⟩
    · rcases hsec with h | h | h <;> simp [validate_production_config, h, hne]
    · by_cases hne : s.environment = "production"
      · rcases hsec with h | h | h <;>
          simp [validate_production_config, h, hne, hact, had, hrl]
      · rcases hsec with h | h | h <;> simp [validate_production_config, h, hne]

/-- C8 witness: a production configuration with auth disabled fails, a
staging configuration with the default secret fails, and a safe production
configuration validates to itself. -/
theorem C8_witness :
    raisesValueError (validate_production_config
      { environment := "production", session_secret_key := "s3cret",
        auto_create_tables := false, auth_disabled := true,
        rate_limit_enabled := true }) = true ∧
    raisesValueError (validate_production_config
      { environment := "staging", session_secret_key := DEFAULT_SESSION_SECRET,
        auto_create_tables := false, auth_disabled := false,
        rate_limit_enabled := true }) = true ∧
    validate_production_config
      { environment := "production", session_secret_key := "s3cret",
        auto_create_tables := false, auth_disabled := false,
        rate_limit_enabled := true } =
      Except.ok
      { environment := "production", session_secret_key := "s3cret",
        auto_create_tables := false, auth_disabled := false,
        rate_limit_enabled := true } :=
  ⟨C8_validate_production_config.1 _ rfl (Or.inr (Or.inl rfl)),
   C8_validate_production_config.2.1 _ (by decide) (by decide) rfl,
   C8_validate_production_config.2.2 _ (Or.inr (Or.inr (by decide)))
     (Or.inr ⟨rfl, rfl, rfl⟩)⟩

/-- C9: after any call to configure_logging the root logger has exactly
one handler, whatever handlers were installed before, and that handler
carries the JSON formatter exactly when fmt is json. -/
theorem C9_configure_logging :
    ∀ (level fmt : String) (st : LoggingState),
      (configure_logging level fmt st).root.handlers.length = 1 ∧
      ∀ h ∈ (configure_logging level fmt st).root.handlers,
        (h.formatter = LogFormatterKind.jsonFormatter ↔ fmt = "json") := by
  intro level fmt st
  refine ⟨rfl, ?_⟩
  intro h hh
  simp only [configure_logging, List.mem_singleton] at hh
  subst hh
  by_cases hf : fmt = "json" <;> simp [hf]

/-- C9 witness: at a concrete prior state with two handlers, the single
resulting handler is the JSON formatter when fmt is json. -/
theorem C9_witness :
    (configure_logging "DEBUG" "json"
      { root :=
          { handlers :=
              [{ formatter := LogFormatterKind.textFormatter "a" "b" },
               { formatter := LogFormatterKind.textFormatter "c" "d" }],
            level := "INFO" },
        namedLevels := [] }).root.handlers.length = 1 ∧
    (({ formatter := LogFormatterKind.jsonFormatter } : LogHandler).formatter =
        LogFormatterKind.jsonFormatter ↔ ("json" : String) = "json") :=
  ⟨(C9_configure_logging "DEBUG" "json" _).1,
   (C9_configure_logging "DEBUG" "json"
      { root := { handlers := [], level := "INFO" }, namedLevels := [] }).2
     { formatter := LogFormatterKind.jsonFormatter } (by decide)⟩

/- ### C10: JSONFormatter.format lemmas -/

lemma not_mem_cons_of (x c : Char) (l : List Char) (h1 : c ≠ x) (h2 : x ∉ l) :
    x ∉ c :: l := by
  intro hm
  rcases List.mem_cons.mp hm with h | h
  · exact h1 h.symm
  · exact h2 h

lemma not_mem_append_of (x : Char) (a b : List Char) (h1 : x ∉ a) (h2 : x ∉ b) :
    x ∉ a ++ b := by
  intro hm
  rcases List.mem_append.mp hm with h | h
  · exact h1 h
  · exact h2 h

lemma hexDigit_ne_newline (n : Nat) : hexDigit n ≠ '\n' := by
  have hlt : n % 16 < 16 := Nat.mod_lt _ (by norm_num)
  unfold hexDigit
  set k := n % 16 with hk
  interval_cases k <;> decide

lemma escChar_no_newline (c : Char) : '\n' ∉ escChar c := by
  unfold escChar
  split_ifs with h1 h2 h3 h4 h5 h6
  · decide
  · decide
  · decide
  · decide
  · decide
  · apply not_mem_cons_of _ _ _ (by decide)
    apply not_mem_cons_of _ _ _ (by decide)
    apply not_mem_cons_of _ _ _ (by decide)
    apply not_mem_cons_of _ _ _ (by decide)
    apply not_mem_cons_of _ _ _ (hexDigit_ne_newline _)
    exact not_mem_cons_of _ _ _ (hexDigit_ne_newline _) (by simp)
  · apply not_mem_cons_of _ _ _ _ (by simp)
    intro h
    apply h6
    rw [h]
    decide

lemma escList_no_newline (l : List Char) : '\n' ∉ escList l := by
  induction l with
  | nil => simp [escList]
  | cons c rest ih =>
    simp only [escList, List.foldr_cons] at *
    exact not_mem_append_of _ _ _ (escChar_no_newline c) ih

lemma escString_no_newline (s : String) : '\n' ∉ escString s :=
  escList_no_newline s.data

lemma renderPair_no_newline (kv : String × String) : '\n' ∉ renderPair kv := by
  unfold renderPair
  apply not_mem_cons_of _ _ _ (by decide)
  apply not_mem_append_of _ _ _ (escString_no_newline _)
  apply not_mem_cons_of _ _ _ (by decide)
  apply not_mem_cons_of _ _ _ (by decide)
  apply not_mem_cons_of _ _ _ (by decide)
  apply not_mem_cons_of _ _ _ (by decide)
  exact not_mem_append_of _ _ _ (escString_no_newline _)
    (not_mem_cons_of _ _ _ (by decide) (by simp))

lemma joinPairs_no_newline (l : List (String × String)) : '\n' ∉ joinPairs l := by
  induction l with
  | nil => simp [joinPairs]
  | cons kv rest ih =>
    cases rest with
    | nil => exact renderPair_no_newline kv
    | cons kv₂ rest₂ =>
      simp only [joinPairs]
      apply not_mem_append_of _ _ _ (renderPair_no_newline kv)
      apply not_mem_cons_of _ _ _ (by decide)
      apply not_mem_cons_of _ _ _ (by decide)
      exact ih

lemma jsonDumps_no_newline (l : List (String × String)) : '\n' ∉ jsonDumps l := by
  unfold jsonDumps
  apply not_mem_cons_of _ _ _ (by decide)
  exact not_mem_append_of _ _ _ (joinPairs_no_newline l) (by decide)

/-- Truthiness of record.exc_info together with record.exc_info[1] not
being None, as the source tests it. -/
def hasExcValue (r : LogRecord) : Bool :=
  match r.excInfo with
  | some e => e.excValue.isSome
  | Option.none => false

/-- C10: the formatted record is a single line (no newline appears, even
when the message, logger name or traceback contain newlines), it is the
JSON serialisation of the entry dict, the entry dict carries exactly the
keys timestamp, level, logger, message (in order) plus exc_info, and the
exc_info key is present if and only if the record carries exception info
whose exception value is not None. -/
theorem C10_json_format_single_line :
    ∀ (ts : String) (r : LogRecord),
      ('\n' ∉ JSONFormatter.format ts r) ∧
      JSONFormatter.format ts r = jsonDumps (logEntry ts r) ∧
      ((logEntry ts r).map Prod.fst =
        ["timestamp", "level", "logger", "message"] ++
          (if hasExcValue r then ["exc_info"] else [])) ∧
      ("exc_info" ∈ (logEntry ts r).map Prod.fst ↔ hasExcValue r = true) := by
  intro ts r
  refine ⟨jsonDumps_no_newline _, rfl, ?_, ?_⟩
  · unfold logEntry hasExcValue
    rcases r.excInfo with _ | e
    · simp
    · rcases he : e.excValue with _ | v <;> simp [he]
  · unfold logEntry hasExcValue
    rcases r.excInfo with _ | e
    · simp
    · rcases he : e.excValue with _ | v <;> simp [he]

/- ### Compatibility checker lemmas (C6) -/

lemma backwardChanges_self (s : SchemaDoc) : backwardChanges s s = [] := by
  unfold backwardChanges
  apply List.append_eq_nil.mpr
  constructor
  · generalize fieldNames s = ns
    induction ns with
    | nil => rfl
    | cons n rest ih =>
      simp only [List.foldr_cons, ih]
      rcases h : lookupField s n with _ | f <;> simp [h]
  · generalize fieldNames s = ns
    induction ns with
    | nil => rfl
    | cons n rest ih =>
      simp only [List.foldr_cons, ih]
      rcases h : lookupField s n with _ | f <;> simp [h]

lemma forwardChanges_self (s : SchemaDoc) (regs : List SchemaDoc) :
    forwardChanges s s regs = [] := by
  unfold forwardChanges
  rw [backwardChanges_self]
  rfl

/-- C6: the engine-facing checker call is deterministic and side-effect
free — its outcome depends only on the two schemas, the mode and the
registration set, never on engine state, and the engine state passes
through unchanged — and checking any schema against itself is compatible
in every mode and for every registration set. -/
theorem C6_check_deterministic_reflexive :
    (∀ (st₁ st₂ : EngineState) (a b : SchemaDoc) (mode : Mode) (regs : List SchemaDoc),
        (checkInEngine st₁ a b mode regs).1 = (checkInEngine st₂ a b mode regs).1) ∧
    (∀ (st : EngineState) (a b : SchemaDoc) (mode : Mode) (regs : List SchemaDoc),
        (checkInEngine st a b mode regs).2 = st) ∧
    (∀ (a : SchemaDoc) (mode : Mode) (regs : List SchemaDoc),
        check a a mode regs = Outcome.compatible) := by
  refine ⟨fun _ _ _ _ _ _ => rfl, fun _ _ _ _ _ => rfl, ?_⟩
  intro a mode regs
  cases mode <;>
    simp [check, outcomeOf, backwardChanges_self, forwardChanges_self]

/-- C4: in the spec scenario (active contract v1 requiring id, consumer
team-B registered, producer publishes v2 removing id under backward mode)
the publish returns proposal_created with a pending proposal whose
breaking-change list contains field_removed for id and activates nothing;
the subsequent withdraw by the producer leaves the proposal withdrawn and
contract v1 still active. -/
theorem C4_breaking_publish_withdraw_scenario :
    ((proposalOfResult c4Publish.1).map (fun p => p.status) = some PStatus.pending) ∧
    ((proposalOfResult c4Publish.1).map
        (fun p => decide (ChangeItem.mk "field_removed" "id" ∈ p.changes)) = some true) ∧
    (c4Publish.2.contracts = c4Start.contracts) ∧
    (c4Withdraw.2.proposals.map (fun p => p.status) = [PStatus.withdrawn]) ∧
    ((activeContractFor c4Withdraw.2 "orders").map (fun c => c.version) = some "1.0.0") := by
  decide

/- ### Engine state projection lemmas -/

@[simp] lemma contracts_setAudit (st : EngineState) (x : List AuditEvent) :
    ({ st with auditLog := x } : EngineState).contracts = st.contracts := rfl

@[simp] lemma contracts_dispatchEvent (st : EngineState) (e : String) :
    (dispatchEvent st e).contracts = st.contracts := rfl

@[simp] lemma contracts_setPropsPid (st : EngineState) (x : List Proposal) (y : Nat) :
    ({ st with proposals := x, nextPid := y } : EngineState).contracts = st.contracts := rfl

@[simp] lemma contracts_setProps (st : EngineState) (x : List Proposal) :
    ({ st with proposals := x } : EngineState).contracts = st.contracts := rfl

@[simp] lemma contracts_setObjs (st : EngineState) (x : List Objection) :
    ({ st with objections := x } : EngineState).contracts = st.contracts := rfl

@[simp] lemma contracts_setDel (st : EngineState) (x : List DeliveryRecord) (y : Nat) :
    ({ st with deliveries := x, nextDid := y } : EngineState).contracts = st.contracts := rfl

@[simp] lemma contracts_setRegs (st : EngineState) (x : List Registration) :
    ({ st with registrations := x } : EngineState).contracts = st.contracts := rfl

@[simp] lemma contracts_registerConsumer (st : EngineState) (a v t : String) :
    (registerConsumer st a v t).contracts = st.contracts := rfl

@[simp] lemma contracts_setSubs (st : EngineState) (x : List String) :
    ({ st with subscribers := x } : EngineState).contracts = st.contracts := rfl

@[simp] lemma contracts_setBrk (st : EngineState) (x : List (String × BreakerPhase)) :
    ({ st with breakers := x } : EngineState).contracts = st.contracts := rfl

@[simp] lemma contracts_setNow (st : EngineState) (x : Nat) :
    ({ st with now := x } : EngineState).contracts = st.contracts := rfl

@[simp] lemma contracts_activateContract (st : EngineState) (c : Contract) :
    (activateContract st c).contracts =
      supersedeActives st.contracts c.asset ++ [{ c with status := CStatus.active }] := rfl

@[simp] lemma proposals_setAudit (st : EngineState) (x : List AuditEvent) :
    ({ st with auditLog := x } : EngineState).proposals = st.proposals := rfl

@[simp] lemma proposals_dispatchEvent (st : EngineState) (e : String) :
    (dispatchEvent st e).proposals = st.proposals := rfl

@[simp] lemma proposals_setObjs (st : EngineState) (x : List Objection) :
    ({ st with objections := x } : EngineState).proposals = st.proposals := rfl

@[simp] lemma proposals_setDel (st : EngineState) (x : List DeliveryRecord) (y : Nat) :
    ({ st with deliveries := x, nextDid := y } : EngineState).proposals = st.proposals := rfl

@[simp] lemma proposals_registerConsumer (st : EngineState) (a v t : String) :
    (registerConsumer st a v t).proposals = st.proposals := rfl

@[simp] lemma proposals_setSubs (st : EngineState) (x : List String) :
    ({ st with subscribers := x } : EngineState).proposals = st.proposals := rfl

@[simp] lemma proposals_setBrk (st : EngineState) (x : List (String × BreakerPhase)) :
    ({ st with breakers := x } : EngineState).proposals = st.proposals := rfl

@[simp] lemma proposals_setNow (st : EngineState) (x : Nat) :
    ({ st with now := x } : EngineState).proposals = st.proposals := rfl

@[simp] lemma proposals_activateContract (st : EngineState) (c : Contract) :
    (activateContract st c).proposals = st.proposals := rfl

@[simp] lemma proposals_setPropsPid (st : EngineState) (x : List Proposal) (y : Nat) :
    ({ st with proposals := x, nextPid := y } : EngineState).proposals = x := rfl

@[simp] lemma proposals_setProps (st : EngineState) (x : List Proposal) :
    ({ st with proposals := x } : EngineState).proposals = x := rfl

lemma foldl_dispatch_contracts (l : List Proposal) (s : EngineState) (e : String) :
    (l.foldl (fun s₂ _ => dispatchEvent s₂ e) s).contracts = s.contracts := by
  induction l generalizing s with
  | nil => rfl
  | cons p rest ih =>
    simp only [List.foldl_cons]
    rw [ih]
    rfl

lemma foldl_dispatch_proposals (l : List Proposal) (s : EngineState) (e : String) :
    (l.foldl (fun s₂ _ => dispatchEvent s₂ e) s).proposals = s.proposals := by
  induction l generalizing s with
  | nil => rfl
  | cons p rest ih =>
    simp only [List.foldl_cons]
    rw [ih]
    rfl

lemma foldl_dispatch_auditLog (l : List Proposal) (s : EngineState) (e : String) :
    (l.foldl (fun s₂ _ => dispatchEvent s₂ e) s).auditLog = s.auditLog := by
  induction l generalizing s with
  | nil => rfl
  | cons p rest ih =>
    simp only [List.foldl_cons]
    rw [ih]
    rfl

/- ### Active-contract counting lemmas (C1) -/

lemma countP_supersedeActives_self (cs : List Contract) (a : String) :
    (supersedeActives cs a).countP (activeP a) = 0 := by
  rw [List.countP_eq_zero]
  intro c hc
  unfold supersedeActives at hc
  obtain ⟨d, hd, rfl⟩ := List.mem_map.mp hc
  by_cases h : d.asset = a ∧ d.status = CStatus.active
  · rw [if_pos h]
    simp [activeP]
  · rw [if_neg h]
    simp only [activeP, decide_eq_true_eq]
    exact h

lemma countP_supersedeActives_other (cs : List Contract) (a b : String) (hba : b ≠ a) :
    (supersedeActives cs a).countP (activeP b) = cs.countP (activeP b) := by
  unfold supersedeActives
  rw [List.countP_map]
  apply List.countP_congr
  intro c _
  by_cases h : c.asset = a ∧ c.status = CStatus.active
  · simp only [Function.comp_apply, if_pos h]
    have h1 : activeP b { c with status := CStatus.superseded } = false := by
      simp [activeP]
    have h2 : activeP b c = false := by
      simp only [activeP, decide_eq_false_iff_not]
      rintro ⟨hb, _⟩
      exact hba (hb.symm.trans h.1)
    rw [h1, h2]
  · simp only [Function.comp_apply, if_neg h]

lemma countActive_activateContract (st : EngineState) (c : Contract) (b : String) :
    countActive (activateContract st c) b =
      if b = c.asset then 1 else countActive st b := by
  unfold countActive
  rw [contracts_activateContract, List.countP_append]
  by_cases hb : b = c.asset
  · subst hb
    rw [countP_supersedeActives_self, if_pos rfl]
    simp [activeP]
  · rw [countP_supersedeActives_other _ _ _ hb, if_neg hb]
    have h1 : activeP b { c with status := CStatus.active } = false := by
      simp only [activeP, decide_eq_false_iff_not]
      rintro ⟨h1, _⟩
      exact hb h1.symm
    simp [h1]

@[simp] lemma countActive_setAudit (st : EngineState) (x : List AuditEvent) (a : String) :
    countActive { st with auditLog := x } a = countActive st a := rfl

@[simp] lemma countActive_dispatchEvent (st : EngineState) (e : String) (a : String) :
    countActive (dispatchEvent st e) a = countActive st a := rfl

@[simp] lemma countActive_setPropsPid (st : EngineState) (x : List Proposal) (y : Nat) (a : String) :
    countActive { st with proposals := x, nextPid := y } a = countActive st a := rfl

@[simp] lemma countActive_setProps (st : EngineState) (x : List Proposal) (a : String) :
    countActive { st with proposals := x } a = countActive st a := rfl

@[simp] lemma countActive_setObjs (st : EngineState) (x : List Objection) (a : String) :
    countActive { st with objections := x } a = countActive st a := rfl

lemma countActive_publish_le (st : EngineState) (asset version : String) (doc : SchemaDoc)
    (mode : Mode) (actor : String) (ok : Bool) (a : String)
    (h : countActive st a ≤ 1) :
    countActive (publish st asset version doc mode actor ok).2 a ≤ 1 := by
  unfold publish
  split
  · exact h
  · split
    · dsimp only
      simp only [countActive_setAudit, countActive_dispatchEvent,
        countActive_activateContract]
      split_ifs
      · exact le_refl 1
      · exact h
    · split
      · dsimp only
        simp only [countActive_setAudit, countActive_dispatchEvent,
          countActive_activateContract]
        split_ifs
        · exact le_refl 1
        · exact h
      · dsimp only
        simpa only [countActive_setAudit, countActive_dispatchEvent,
          countActive_setPropsPid] using h

lemma countActive_resolve_le (st : EngineState) (pid : Nat) (action : ResolveAction)
    (actor : String) (ok : Bool) (a : String)
    (h : countActive st a ≤ 1) :
    countActive (resolve_proposal st pid action actor ok).2 a ≤ 1 := by
  unfold resolve_proposal
  split
  · exact h
  · split
    · cases action with
      | withdraw =>
        dsimp only
        simpa only [countActive_setAudit, countActive_dispatchEvent,
          countActive_setProps] using h
      | reject =>
        dsimp only
        simpa only [countActive_setAudit, countActive_dispatchEvent,
          countActive_setProps] using h
      | approve =>
        dsimp only
        simp only [countActive_setAudit, countActive_dispatchEvent,
          countActive_activateContract]
        split_ifs
        · exact le_refl 1
        · simpa only [countActive_setProps] using h
    · exact h

lemma countActive_objection_eq (st : EngineState) (pid : Nat) (team reason : String)
    (ok : Bool) (a : String) :
    countActive (file_objection st pid team reason ok).2 a = countActive st a := by
  unfold file_objection
  split
  · rfl
  · split
    · dsimp only
      simp only [countActive_setAudit, countActive_dispatchEvent, countActive_setObjs]
    · rfl

lemma countActive_sweep_eq (st : EngineState) (ok : Bool) (a : String) :
    countActive (sweep_expired st ok).2 a = countActive st a := by
  unfold sweep_expired countActive
  dsimp only
  rw [contracts_setAudit, foldl_dispatch_contracts, contracts_setProps]

lemma countActive_replay_eq (st : EngineState) (rid : Nat) (a : String) :
    countActive (replay_dead_letter st rid).2 a = countActive st a := by
  unfold replay_dead_letter
  split
  · rfl
  · split
    · rfl
    · rfl

/-- C1: in every committed state reachable by the engine operations the
number of active contracts per asset is 0 or 1; and whenever a new version
is activated, every previously active contract of the asset is superseded
in the same step. -/
theorem C1_single_active_per_asset :
    (∀ st, Reachable st → ∀ a, countActive st a ≤ 1) ∧
    (∀ (st : EngineState) (c d : Contract), d ∈ st.contracts → d.asset = c.asset →
        d.status = CStatus.active →
        { d with status := CStatus.superseded } ∈ (activateContract st c).contracts) := by
  constructor
  · intro st hre
    induction hre with
    | init => intro a; exact Nat.zero_le 1
    | step hre hstep ih =>
      intro a
      cases hstep with
      | publishStep asset version doc mode actor ok =>
        exact countActive_publish_le _ asset version doc mode actor ok a (ih a)
      | resolveStep pid action actor ok =>
        exact countActive_resolve_le _ pid action actor ok a (ih a)
      | objectionStep pid team reason ok =>
        rw [countActive_objection_eq]
        exact ih a
      | sweepStep ok =>
        rw [countActive_sweep_eq]
        exact ih a
      | replayStep rid =>
        rw [countActive_replay_eq]
        exact ih a
      | registerStep asset version team => exact ih a
      | subscribeStep dest => exact ih a
      | breakerStep dest ph => exact ih a
      | tickStep dt => exact ih a
  · intro st c d hd hasset hstatus
    rw [contracts_activateContract]
    apply List.mem_append_left
    unfold supersedeActives
    have hmem := List.mem_map_of_mem
      (fun x : Contract =>
        if x.asset = c.asset ∧ x.status = CStatus.active then
          { x with status := CStatus.superseded } else x) hd
    dsimp only at hmem
    rw [if_pos ⟨hasset, hstatus⟩] at hmem
    exact hmem

/-- C1 witness: the invariant at the (reachable) initial state, and the
supersession of the concrete active orders contract on activation. -/
theorem C1_witness :
    countActive initState "orders" ≤ 1 ∧
    { ordersContractV1 with status := CStatus.superseded } ∈
      (activateContract c4Start ordersContractV1).contracts :=
  ⟨C1_single_active_per_asset.1 initState Reachable.init "orders",
   C1_single_active_per_asset.2 c4Start ordersContractV1 ordersContractV1
     (by decide) rfl rfl⟩

/- ### Published proposals are immutable (C3) -/

lemma exists_contract_activate (st : EngineState) (c : Contract) (asset version : String)
    (h : ∃ d ∈ st.contracts, d.asset = asset ∧ d.version = version) :
    ∃ d ∈ (activateContract st c).contracts, d.asset = asset ∧ d.version = version := by
  obtain ⟨d, hd, h1, h2⟩ := h
  rw [contracts_activateContract]
  by_cases hc : d.asset = c.asset ∧ d.status = CStatus.active
  · refine ⟨{ d with status := CStatus.superseded }, ?_, h1, h2⟩
    apply List.mem_append_left
    unfold supersedeActives
    have hmem := List.mem_map_of_mem
      (fun x : Contract =>
        if x.asset = c.asset ∧ x.status = CStatus.active then
          { x with status := CStatus.superseded } else x) hd
    dsimp only at hmem
    rw [if_pos hc] at hmem
    exact hmem
  · refine ⟨d, ?_, h1, h2⟩
    apply List.mem_append_left
    unfold supersedeActives
    have hmem := List.mem_map_of_mem
      (fun x : Contract =>
        if x.asset = c.asset ∧ x.status = CStatus.active then
          { x with status := CStatus.superseded } else x) hd
    dsimp only at hmem
    rw [if_neg hc] at hmem
    exact hmem

lemma published_mem_publish (st : EngineState) (asset version : String) (doc : SchemaDoc)
    (mode : Mode) (actor : String) (ok : Bool) (q : Proposal)
    (hq : q ∈ st.proposals) :
    q ∈ (publish st asset version doc mode actor ok).2.proposals := by
  unfold publish
  split
  · exact hq
  · split
    · dsimp only
      simpa only [proposals_setAudit, proposals_dispatchEvent,
        proposals_activateContract] using hq
    · split
      · dsimp only
        simpa only [proposals_setAudit, proposals_dispatchEvent,
          proposals_activateContract] using hq
      · dsimp only
        simp only [proposals_setAudit, proposals_dispatchEvent, proposals_setPropsPid]
        exact List.mem_append_left _ hq

lemma published_mem_resolve (st : EngineState) (pid : Nat) (action : ResolveAction)
    (actor : String) (ok : Bool) (q : Proposal)
    (hq : q ∈ st.proposals) (hs : q.status = PStatus.published) :
    q ∈ (resolve_proposal st pid action actor ok).2.proposals := by
  unfold resolve_proposal
  split
  · exact hq
  · next p hf =>
    split
    · next hps =>
      have hmap : q ∈ setResolved st.proposals p action actor st.now := by
        unfold setResolved
        have hmem := List.mem_map_of_mem
          (fun x : Proposal => if x = p then resolveUpdate x action actor st.now else x) hq
        dsimp only at hmem
        rw [if_neg (fun hqp => by rw [hqp] at hs; rw [hs] at hps; exact PStatus.noConfusion hps)] at hmem
        exact hmem
      cases action with
      | withdraw =>
        dsimp only
        simpa only [proposals_setAudit, proposals_dispatchEvent,
          proposals_setProps] using hmap
      | reject =>
        dsimp only
        simpa only [proposals_setAudit, proposals_dispatchEvent,
          proposals_setProps] using hmap
      | approve =>
        dsimp only
        simpa only [proposals_setAudit, proposals_dispatchEvent,
          proposals_activateContract, proposals_setProps] using hmap
    · exact hq

lemma published_mem_objection (st : EngineState) (pid : Nat) (team reason : String)
    (ok : Bool) (q : Proposal) (hq : q ∈ st.proposals) :
    q ∈ (file_objection st pid team reason ok).2.proposals := by
  unfold file_objection
  split
  · exact hq
  · split
    · dsimp only
      simpa only [proposals_setAudit, proposals_dispatchEvent, proposals_setObjs] using hq
    · exact hq

lemma published_mem_sweep (st : EngineState) (ok : Bool) (q : Proposal)
    (hq : q ∈ st.proposals) (hs : q.status = PStatus.published) :
    q ∈ (sweep_expired st ok).2.proposals := by
  unfold sweep_expired
  dsimp only
  simp only [proposals_setAudit, foldl_dispatch_proposals, proposals_setProps]
  have hmem := List.mem_map_of_mem (sweepOne st.now) hq
  have heq : sweepOne st.now q = q := by
    unfold sweepOne
    rw [if_neg]
    rintro ⟨h1, _⟩
    rw [hs] at h1
    exact PStatus.noConfusion h1
  rw [heq] at hmem
  exact hmem

lemma published_mem_replay (st : EngineState) (rid : Nat) (q : Proposal)
    (hq : q ∈ st.proposals) :
    q ∈ (replay_dead_letter st rid).2.proposals := by
  unfold replay_dead_letter
  split
  · exact hq
  · split
    · simpa only [proposals_setDel] using hq
    · exact hq

lemma publishedInv_publish (st : EngineState) (asset version : String) (doc : SchemaDoc)
    (mode : Mode) (actor : String) (ok : Bool) (h : publishedInv st) :
    publishedInv (publish st asset version doc mode actor ok).2 := by
  unfold publish
  split
  · exact h
  · split
    · intro q hq hs
      dsimp only at hq
      simp only [proposals_setAudit, proposals_dispatchEvent,
        proposals_activateContract] at hq
      obtain ⟨h1, h2⟩ := h q hq hs
      refine ⟨h1, ?_⟩
      dsimp only
      simp only [contracts_setAudit, contracts_dispatchEvent]
      exact exists_contract_activate st _ _ _ h2
    · split
      · intro q hq hs
        dsimp only at hq
        simp only [proposals_setAudit, proposals_dispatchEvent,
          proposals_activateContract] at hq
        obtain ⟨h1, h2⟩ := h q hq hs
        refine ⟨h1, ?_⟩
        dsimp only
        simp only [contracts_setAudit, contracts_dispatchEvent]
        exact exists_contract_activate st _ _ _ h2
      · intro q hq hs
        dsimp only at hq
        simp only [proposals_setAudit, proposals_dispatchEvent,
          proposals_setPropsPid] at hq
        rcases List.mem_append.mp hq with hq₂ | hq₂
        · obtain ⟨h1, h2⟩ := h q hq₂ hs
          refine ⟨h1, ?_⟩
          dsimp only
          simpa only [contracts_setAudit, contracts_dispatchEvent,
            contracts_setPropsPid] using h2
        · rw [List.mem_singleton] at hq₂
          rw [hq₂] at hs
          exact absurd hs (by simp)

lemma publishedInv_resolve (st : EngineState) (pid : Nat) (action : ResolveAction)
    (actor : String) (ok : Bool) (h : publishedInv st) :
    publishedInv (resolve_proposal st pid action actor ok).2 := by
  unfold resolve_proposal
  split
  · exact h
  · next p hf =>
    split
    · next hps =>
      cases action with
      | withdraw =>
        intro q hq hs
        dsimp only at hq
        simp only [proposals_setAudit, proposals_dispatchEvent,
          proposals_setProps] at hq
        unfold setResolved at hq
        obtain ⟨x, hx, hxq⟩ := List.mem_map.mp hq
        by_cases hxp : x = p
        · rw [if_pos hxp] at hxq
          rw [← hxq] at hs
          exact absurd hs (by simp [resolveUpdate, terminalStatusOf])
        · rw [if_neg hxp] at hxq
          rw [← hxq]
          obtain ⟨h1, h2⟩ := h x hx (hxq ▸ hs)
          refine ⟨h1, ?_⟩
          dsimp only
          simpa only [contracts_setAudit, contracts_dispatchEvent,
            contracts_setProps] using h2
      | reject =>
        intro q hq hs
        dsimp only at hq
        simp only [proposals_setAudit, proposals_dispatchEvent,
          proposals_setProps] at hq
        unfold setResolved at hq
        obtain ⟨x, hx, hxq⟩ := List.mem_map.mp hq
        by_cases hxp : x = p
        · rw [if_pos hxp] at hxq
          rw [← hxq] at hs
          exact absurd hs (by simp [resolveUpdate, terminalStatusOf])
        · rw [if_neg hxp] at hxq
          rw [← hxq]
          obtain ⟨h1, h2⟩ := h x hx (hxq ▸ hs)
          refine ⟨h1, ?_⟩
          dsimp only
          simpa only [contracts_setAudit, contracts_dispatchEvent,
            contracts_setProps] using h2
      | approve =>
        intro q hq hs
        dsimp only at hq
        simp only [proposals_setAudit, proposals_dispatchEvent,
          proposals_activateContract, proposals_setProps] at hq
        unfold setResolved at hq
        obtain ⟨x, hx, hxq⟩ := List.mem_map.mp hq
        by_cases hxp : x = p
        · rw [if_pos hxp] at hxq
          refine ⟨?_, ?_⟩
          · rw [← hxq]
            simp [resolveUpdate]
          · dsimp only
            simp only [contracts_setAudit, contracts_dispatchEvent,
              contracts_activateContract]
            refine ⟨{ asset := p.asset, version := p.proposedVersion,
                      schemaDoc := p.proposedSchema, compatibilityMode := p.mode,
                      status := CStatus.active, publishedBy := actor }, ?_, ?_, ?_⟩
            · exact List.mem_append_right _ (List.mem_singleton.mpr rfl)
            · rw [← hxq, hxp]
              rfl
            · rw [← hxq, hxp]
              rfl
        · rw [if_neg hxp] at hxq
          obtain ⟨h1, h2⟩ := h x hx (hxq ▸ hs)
          refine ⟨hxq ▸ h1, ?_⟩
          dsimp only
          simp only [contracts_setAudit, contracts_dispatchEvent]
          have h3 : ∃ d ∈ ({ st with
              proposals := setResolved st.proposals p ResolveAction.approve actor st.now }
                : EngineState).contracts,
              d.asset = q.asset ∧ d.version = q.proposedVersion := by
            simpa only [contracts_setProps, hxq] using h2
          exact exists_contract_activate _ _ _ _ h3
    · exact h

lemma publishedInv_objection (st : EngineState) (pid : Nat) (team reason : String)
    (ok : Bool) (h : publishedInv st) :
    publishedInv (file_objection st pid team reason ok).2 := by
  unfold file_objection
  split
  · exact h
  · split
    · intro q hq hs
      dsimp only at hq
      simp only [proposals_setAudit, proposals_dispatchEvent, proposals_setObjs] at hq
      obtain ⟨h1, h2⟩ := h q hq hs
      refine ⟨h1, ?_⟩
      dsimp only
      simpa only [contracts_setAudit, contracts_dispatchEvent, contracts_setObjs] using h2
    · exact h

lemma publishedInv_sweep (st : EngineState) (ok : Bool) (h : publishedInv st) :
    publishedInv (sweep_expired st ok).2 := by
  unfold sweep_expired
  intro q hq hs
  dsimp only at hq
  simp only [proposals_setAudit, foldl_dispatch_proposals, proposals_setProps] at hq
  obtain ⟨x, hx, hxq⟩ := List.mem_map.mp hq
  unfold sweepOne at hxq
  by_cases hc : x.status = PStatus.pending ∧ x.expiresAt ≤ st.now
  · rw [if_pos hc] at hxq
    rw [← hxq] at hs
    exact absurd hs (by simp)
  · rw [if_neg hc] at hxq
    obtain ⟨h1, h2⟩ := h x hx (hxq ▸ hs)
    refine ⟨hxq ▸ h1, ?_⟩
    dsimp only
    simp only [contracts_setAudit, foldl_dispatch_contracts, contracts_setProps]
    simpa only [hxq] using h2

lemma publishedInv_replay (st : EngineState) (rid : Nat) (h : publishedInv st) :
    publishedInv (replay_dead_letter st rid).2 := by
  unfold replay_dead_letter
  split
  · exact h
  · split
    · intro q hq hs
      obtain ⟨h1, h2⟩ := h q (by simpa only [proposals_setDel] using hq) hs
      refine ⟨h1, ?_⟩
      simpa only [contracts_setDel] using h2
    · exact h

/-- C3: a published proposal record is preserved unchanged by every engine
step (published is terminal); in every reachable state a published
proposal has a non-null resolution time and its target contract exists in
the version history (it became active when the proposal was published);
and any further resolution attempt on a published proposal fails with
ProposalAlreadyResolved naming the published status, leaving the state
unchanged — so it can never be published a second time. -/
theorem C3_published_is_terminal :
    (∀ st st₂, Step st st₂ → ∀ q ∈ st.proposals, q.status = PStatus.published →
        q ∈ st₂.proposals) ∧
    (∀ st, Reachable st → publishedInv st) ∧
    (∀ (st : EngineState) (pid : Nat) (action : ResolveAction) (actor : String)
        (ok : Bool) (p : Proposal),
        st.proposals.find? (fun q => decide (q.id = pid)) = some p →
        p.status = PStatus.published →
        resolve_proposal st pid action actor ok =
          (ResolveResult.alreadyResolved PStatus.published, st)) := by
  refine ⟨?_, ?_, ?_⟩
  · intro st st₂ hstep q hq hs
    cases hstep with
    | publishStep asset version doc mode actor ok =>
      exact published_mem_publish _ asset version doc mode actor ok q hq
    | resolveStep pid action actor ok =>
      exact published_mem_resolve _ pid action actor ok q hq hs
    | objectionStep pid team reason ok =>
      exact published_mem_objection _ pid team reason ok q hq
    | sweepStep ok =>
      exact published_mem_sweep _ ok q hq hs
    | replayStep rid =>
      exact published_mem_replay _ rid q hq
    | registerStep asset version team => exact hq
    | subscribeStep dest => exact hq
    | breakerStep dest ph => exact hq
    | tickStep dt => exact hq
  · intro st hre
    induction hre with
    | init => intro q hq _; exact absurd hq (List.not_mem_nil q)
    | step hre hstep ih =>
      cases hstep with
      | publishStep asset version doc mode actor ok =>
        exact publishedInv_publish _ asset version doc mode actor ok ih
      | resolveStep pid action actor ok =>
        exact publishedInv_resolve _ pid action actor ok ih
      | objectionStep pid team reason ok =>
        exact publishedInv_objection _ pid team reason ok ih
      | sweepStep ok => exact publishedInv_sweep _ ok ih
      | replayStep rid => exact publishedInv_replay _ rid ih
      | registerStep asset version team => exact ih
      | subscribeStep dest => exact ih
      | breakerStep dest ph => exact ih
      | tickStep dt => exact ih
  · intro st pid action actor ok p hf hp
    unfold resolve_proposal
    split
    · next hnone =>
      rw [hf] at hnone
      exact Option.noConfusion hnone
    · next p₂ hf₂ =>
      rw [hf] at hf₂
      injection hf₂ with hpp
      subst hpp
      rw [if_neg (fun hpend => by rw [hp] at hpend; exact PStatus.noConfusion hpend)]
      rw [hp]

/-- C3 witness: a published proposal survives a concrete objection step
unchanged; the invariant holds at the reachable initial state; and a
concrete approve on an already-published proposal fails with
ProposalAlreadyResolved published. -/
theorem C3_witness :
    (publishedProposalW ∈
      (file_objection wStatePublished 0 "team-B" "too soon" true).2.proposals) ∧
    publishedInv initState ∧
    resolve_proposal wStatePublished 0 ResolveAction.approve "team-A" true =
      (ResolveResult.alreadyResolved PStatus.published, wStatePublished) :=
  ⟨C3_published_is_terminal.1 wStatePublished _
      (Step.objectionStep wStatePublished 0 "team-B" "too soon" true)
      publishedProposalW (by decide) rfl,
   C3_published_is_terminal.2.1 initState Reachable.init,
   C3_published_is_terminal.2.2 wStatePublished 0 ResolveAction.approve "team-A" true
      publishedProposalW rfl rfl⟩

/- ### Audit events per transition (C5) -/

lemma resolve_audit_eq (st : EngineState) (pid : Nat) (action : ResolveAction)
    (actor : String) (p : Proposal)
    (hf : st.proposals.find? (fun q => decide (q.id = pid)) = some p)
    (hp : p.status = PStatus.pending) :
    (resolve_proposal st pid action actor true).2.auditLog =
      st.auditLog ++ [resolveAuditEvent action p actor] := by
  unfold resolve_proposal
  split
  · next hnone =>
    rw [hf] at hnone
    exact Option.noConfusion hnone
  · next p₂ hf₂ =>
    rw [hf] at hf₂
    injection hf₂ with hpp
    subst hpp
    rw [if_pos hp]
    cases action <;> rfl

lemma objection_audit_eq (st : EngineState) (pid : Nat) (team reason : String)
    (p : Proposal)
    (hf : st.proposals.find? (fun q => decide (q.id = pid)) = some p)
    (hp : p.status = PStatus.pending) :
    (file_objection st pid team reason true).2.auditLog =
      st.auditLog ++ [objectionAuditEvent pid team reason] := by
  unfold file_objection
  split
  · next hnone =>
    rw [hf] at hnone
    exact Option.noConfusion hnone
  · next p₂ hf₂ =>
    rw [hf] at hf₂
    injection hf₂ with hpp
    subst hpp
    rw [if_pos hp]
    rfl

lemma publish_audit_one (st : EngineState) (asset version : String) (doc : SchemaDoc)
    (mode : Mode) (actor : String) :
    (∃ pid, (publish st asset version doc mode actor true).1 =
        PublishResult.conflictPending pid ∧
      (publish st asset version doc mode actor true).2 = st) ∨
    (∃ ev, (publish st asset version doc mode actor true).2.auditLog =
        st.auditLog ++ [ev]) := by
  unfold publish
  split
  · next p _ => exact Or.inl ⟨p.id, rfl, rfl⟩
  · split
    · exact Or.inr ⟨_, rfl⟩
    · split
      · exact Or.inr ⟨_, rfl⟩
      · exact Or.inr ⟨_, rfl⟩

lemma sweep_audit_len (st : EngineState) (ok : Bool) :
    (sweep_expired st ok).2.auditLog.length =
      st.auditLog.length + (if ok then (sweep_expired st ok).1 else 0) := by
  unfold sweep_expired
  dsimp only
  cases ok with
  | false => simp [emitAuditMany, foldl_dispatch_auditLog]
  | true => simp [emitAuditMany, foldl_dispatch_auditLog]

lemma publish_audit_indep (st : EngineState) (asset version : String) (doc : SchemaDoc)
    (mode : Mode) (actor : String) :
    (publish st asset version doc mode actor false).1 =
      (publish st asset version doc mode actor true).1 ∧
    eraseAudit (publish st asset version doc mode actor false).2 =
      eraseAudit (publish st asset version doc mode actor true).2 := by
  unfold publish
  split
  · exact ⟨rfl, rfl⟩
  · split
    · exact ⟨rfl, rfl⟩
    · split
      · exact ⟨rfl, rfl⟩
      · exact ⟨rfl, rfl⟩

lemma resolve_audit_indep (st : EngineState) (pid : Nat) (action : ResolveAction)
    (actor : String) :
    (resolve_proposal st pid action actor false).1 =
      (resolve_proposal st pid action actor true).1 ∧
    eraseAudit (resolve_proposal st pid action actor false).2 =
      eraseAudit (resolve_proposal st pid action actor true).2 := by
  unfold resolve_proposal
  split
  · exact ⟨rfl, rfl⟩
  · split
    · cases action <;> exact ⟨rfl, rfl⟩
    · exact ⟨rfl, rfl⟩

lemma objection_audit_indep (st : EngineState) (pid : Nat) (team reason : String) :
    (file_objection st pid team reason false).1 =
      (file_objection st pid team reason true).1 ∧
    eraseAudit (file_objection st pid team reason false).2 =
      eraseAudit (file_objection st pid team reason true).2 := by
  unfold file_objection
  split
  · exact ⟨rfl, rfl⟩
  · split
    · exact ⟨rfl, rfl⟩
    · exact ⟨rfl, rfl⟩

lemma sweep_audit_indep (st : EngineState) :
    (sweep_expired st false).1 = (sweep_expired st true).1 ∧
    eraseAudit (sweep_expired st false).2 = eraseAudit (sweep_expired st true).2 :=
  ⟨rfl, rfl⟩

/-- C5: a proposal resolution emits exactly the one audit event for its
action with the proposal entity and acting actor; an objection emits
exactly its one audit event carrying the reason; a publish appends
exactly one audit event unless it is rejected as a conflict; sweep_expired
emits exactly one audit event per expired proposal; and for every
operation an audit-sink failure changes neither the returned result nor
any part of the committed state other than the external audit log —
governance transitions are never blocked or rolled back by the sink. -/
theorem C5_one_audit_event_per_transition :
    (∀ (st : EngineState) (pid : Nat) (action : ResolveAction) (actor : String)
        (p : Proposal),
        st.proposals.find? (fun q => decide (q.id = pid)) = some p →
        p.status = PStatus.pending →
        (resolve_proposal st pid action actor true).2.auditLog =
          st.auditLog ++ [resolveAuditEvent action p actor]) ∧
    (∀ (st : EngineState) (pid : Nat) (team reason : String) (p : Proposal),
        st.proposals.find? (fun q => decide (q.id = pid)) = some p →
        p.status = PStatus.pending →
        (file_objection st pid team reason true).2.auditLog =
          st.auditLog ++ [objectionAuditEvent pid team reason]) ∧
    (∀ (st : EngineState) (asset version : String) (doc : SchemaDoc)
        (mode : Mode) (actor : String),
        (∃ pid, (publish st asset version doc mode actor true).1 =
            PublishResult.conflictPending pid ∧
          (publish st asset version doc mode actor true).2 = st) ∨
        (∃ ev, (publish st asset version doc mode actor true).2.auditLog =
            st.auditLog ++ [ev])) ∧
    (∀ (st : EngineState) (ok : Bool),
        (sweep_expired st ok).2.auditLog.length =
          st.auditLog.length + (if ok then (sweep_expired st ok).1 else 0)) ∧
    (∀ (st : EngineState) (asset version : String) (doc : SchemaDoc)
        (mode : Mode) (actor : String),
        (publish st asset version doc mode actor false).1 =
          (publish st asset version doc mode actor true).1 ∧
        eraseAudit (publish st asset version doc mode actor false).2 =
          eraseAudit (publish st asset version doc mode actor true).2) ∧
    (∀ (st : EngineState) (pid : Nat) (action : ResolveAction) (actor : String),
        (resolve_proposal st pid action actor false).1 =
          (resolve_proposal st pid action actor true).1 ∧
        eraseAudit (resolve_proposal st pid action actor false).2 =
          eraseAudit (resolve_proposal st pid action actor true).2) ∧
    (∀ (st : EngineState) (pid : Nat) (team reason : String),
        (file_objection st pid team reason false).1 =
          (file_objection st pid team reason true).1 ∧
        eraseAudit (file_objection st pid team reason false).2 =
          eraseAudit (file_objection st pid team reason true).2) ∧
    (∀ st : EngineState,
        (sweep_expired st false).1 = (sweep_expired st true).1 ∧
        eraseAudit (sweep_expired st false).2 = eraseAudit (sweep_expired st true).2) :=
  ⟨resolve_audit_eq, objection_audit_eq, publish_audit_one, sweep_audit_len,
   publish_audit_indep, resolve_audit_indep, objection_audit_indep, sweep_audit_indep⟩

/-- C5 witness: the withdraw of a concrete pending proposal appends exactly
its one audit event, and a concrete objection with a failing audit sink
commits the same governance state as with a working one. -/
theorem C5_witness :
    (resolve_proposal wStatePending 0 ResolveAction.withdraw "team-A" true).2.auditLog =
      wStatePending.auditLog ++
        [resolveAuditEvent ResolveAction.withdraw pendingProposalW "team-A"] ∧
    eraseAudit (file_objection wStatePending 0 "team-B" "why" false).2 =
      eraseAudit (file_objection wStatePending 0 "team-B" "why" true).2 :=
  ⟨C5_one_audit_event_per_transition.1 wStatePending 0 ResolveAction.withdraw "team-A"
      pendingProposalW rfl rfl,
   (C5_one_audit_event_per_transition.2.2.2.2.2.2.1 wStatePending 0 "team-B" "why").2⟩
